import Mathlib

/-!
Verification of the Steinhart-Hart thermistor converter.

The repository holds two variants of the same module:

* `steinhart_hart.py` — module-level `temperature` / `resistance` functions
  over an optional coefficient triple, plus a class `Abc` binding a triple;
  temperatures are in Kelvin.
* `shh.py` — the historical variant whose core functions bake in the
  273.15 Celsius/Kelvin offset.

Both are embedded here over the real numbers: `np.log`, `np.exp`, `np.sqrt`
and `np.cbrt` become `Real.log`, `Real.exp`, `Real.sqrt` and the signed real
cube root `cbrt` defined below; the Python `abc=None` default parameter
becomes an `Option` argument resolved with `Option.getD`.
-/

namespace SteinhartHart

/-- The ABC coefficients for the Steinhart-Hart equation as a tuple of
(A, B, C), mirroring the `ABC` type alias of `steinhart_hart.py`. -/
abbrev ABC : Type := ℝ × ℝ × ℝ

/-- Embedding of `DEFAULT_ABC` from `steinhart_hart.py`: the default
coefficients for ILX Lightwave laser diode controllers. -/
noncomputable def DEFAULT_ABC : ABC := (1.125e-3, 2.347e-4, 0.855e-7)

/-- Embedding of `np.cbrt`: the real, correctly signed cube root. -/
noncomputable def cbrt (v : ℝ) : ℝ :=
  if v < 0 then -((-v) ^ ((1 : ℝ) / 3)) else v ^ ((1 : ℝ) / 3)

/-- Embedding of the module-level `temperature` of `steinhart_hart.py`:
`1 / (a + b * np.log(r) + c * np.log(r) ** 3)` where `(a, b, c)` is
`DEFAULT_ABC if abc is None else abc`. -/
noncomputable def temperature (r : ℝ) (abc : Option ABC := none) : ℝ :=
  let a := (abc.getD DEFAULT_ABC).1
  let b := (abc.getD DEFAULT_ABC).2.1
  let c := (abc.getD DEFAULT_ABC).2.2
  1 / (a + b * Real.log r + c * Real.log r ^ 3)

/-- Embedding of the module-level `resistance` of `steinhart_hart.py`:
`x = (a - 1 / t) / c`, `y = np.sqrt((b / (3 * c)) ** 3 + x ** 2 / 4)`,
result `np.exp(np.cbrt(y - x / 2) - np.cbrt(y + x / 2))`, where `(a, b, c)`
is `DEFAULT_ABC if abc is None else abc`. -/
noncomputable def resistance (t : ℝ) (abc : Option ABC := none) : ℝ :=
  let a := (abc.getD DEFAULT_ABC).1
  let b := (abc.getD DEFAULT_ABC).2.1
  let c := (abc.getD DEFAULT_ABC).2.2
  let x := (a - 1 / t) / c
  let y := Real.sqrt ((b / (3 * c)) ^ 3 + x ^ 2 / 4)
  Real.exp (cbrt (y - x / 2) - cbrt (y + x / 2))

/-- Embedding of the class `Abc` of `steinhart_hart.py`: its one piece of
state is the stored coefficient triple `self.__abc`. -/
structure Abc where
  abc : ABC

/-- Embedding of `Abc.__init__`: `self.__abc = DEFAULT_ABC if abc is None
else abc`. -/
noncomputable def Abc.init (abc : Option ABC := none) : Abc :=
  ⟨abc.getD DEFAULT_ABC⟩

/-- Embedding of the method `Abc.temperature`:
`return temperature(r, abc=self.__abc)`. -/
noncomputable def Abc.temperature (s : Abc) (r : ℝ) : ℝ :=
  SteinhartHart.temperature r (some s.abc)

/-- Embedding of the method `Abc.resistance`:
`return resistance(t, abc=self.__abc)`. -/
noncomputable def Abc.resistance (s : Abc) (t : ℝ) : ℝ :=
  SteinhartHart.resistance t (some s.abc)

end SteinhartHart

namespace Shh

/-- Embedding of `DEFAULT_ABC` from `shh.py` (same numeric values as in
`steinhart_hart.py`). -/
noncomputable def DEFAULT_ABC : SteinhartHart.ABC := (1.125e-3, 2.347e-4, 0.855e-7)

/-- Embedding of `temperature` from `shh.py`:
`1 / (a + b * np.log(r) + c * np.log(r) ** 3) - 273.15`. -/
noncomputable def temperature (r : ℝ) (abc : Option SteinhartHart.ABC := none) : ℝ :=
  let a := (abc.getD Shh.DEFAULT_ABC).1
  let b := (abc.getD Shh.DEFAULT_ABC).2.1
  let c := (abc.getD Shh.DEFAULT_ABC).2.2
  1 / (a + b * Real.log r + c * Real.log r ^ 3) - 273.15

/-- Embedding of `resistance` from `shh.py`: identical to the
`steinhart_hart.py` version except `x = (a - 1 / (t + 273.15)) / c`. -/
noncomputable def resistance (t : ℝ) (abc : Option SteinhartHart.ABC := none) : ℝ :=
  let a := (abc.getD Shh.DEFAULT_ABC).1
  let b := (abc.getD Shh.DEFAULT_ABC).2.1
  let c := (abc.getD Shh.DEFAULT_ABC).2.2
  let x := (a - 1 / (t + 273.15)) / c
  let y := Real.sqrt ((b / (3 * c)) ^ 3 + x ^ 2 / 4)
  Real.exp (SteinhartHart.cbrt (y - x / 2) - SteinhartHart.cbrt (y + x / 2))

end Shh

open SteinhartHart

/-- Cubing is strictly monotone on the reals. -/
lemma cube_strictMono : StrictMono (fun u : ℝ => u ^ 3) :=
  Odd.strictMono_pow ⟨1, by norm_num⟩

/-- Cubing is injective on the reals. -/
lemma cube_injective : Function.Injective (fun u : ℝ => u ^ 3) :=
  cube_strictMono.injective

/-- The signed real cube root is a right inverse of cubing. -/
lemma cbrt_cube (v : ℝ) : cbrt v ^ 3 = v := by
  unfold cbrt
  rcases lt_or_le v 0 with h | h
  · rw [if_pos h, Odd.neg_pow ⟨1, by norm_num⟩]
    have h0 : (0 : ℝ) ≤ -v := by linarith
    have : ((-v) ^ ((1 : ℝ) / 3)) ^ (3 : ℕ) = -v := by
      rw [← Real.rpow_natCast ((-v) ^ ((1 : ℝ) / 3)) 3, ← Real.rpow_mul h0]
      norm_num
    rw [this]; ring
  · rw [if_neg (not_lt.mpr h)]
    rw [← Real.rpow_natCast (v ^ ((1 : ℝ) / 3)) 3, ← Real.rpow_mul h]
    norm_num

/-- The signed real cube root is a left inverse of cubing. -/
lemma cbrt_of_cube (u : ℝ) : cbrt (u ^ 3) = u :=
  cube_injective (by simpa using cbrt_cube (u ^ 3))

/-- The signed real cube root is multiplicative. -/
lemma cbrt_mul (a b : ℝ) : cbrt (a * b) = cbrt a * cbrt b :=
  cube_injective (by simp only [mul_pow, cbrt_cube])

/-- The signed real cube root is strictly monotone. -/
lemma cbrt_lt_cbrt {a b : ℝ} (h : a < b) : cbrt a < cbrt b := by
  by_contra hc
  push_neg at hc
  have h3 : b ≤ a := by
    have := cube_strictMono.monotone hc
    simpa [cbrt_cube] using this
  linarith

/-- Cardano step: with `y = sqrt(p^3 + x^2/4)` (for `0 ≤ p`), the number
`u = cbrt(y - x/2) - cbrt(y + x/2)` is a root of `u^3 + 3*p*u + x = 0`. -/
lemma cardano_root (p x : ℝ) (hp : 0 ≤ p) :
    (cbrt (Real.sqrt (p ^ 3 + x ^ 2 / 4) - x / 2)
        - cbrt (Real.sqrt (p ^ 3 + x ^ 2 / 4) + x / 2)) ^ 3
      + 3 * p * (cbrt (Real.sqrt (p ^ 3 + x ^ 2 / 4) - x / 2)
        - cbrt (Real.sqrt (p ^ 3 + x ^ 2 / 4) + x / 2)) + x = 0 := by
  set y := Real.sqrt (p ^ 3 + x ^ 2 / 4) with hy
  have hnn : (0 : ℝ) ≤ p ^ 3 + x ^ 2 / 4 := by positivity
  have hysq : y ^ 2 = p ^ 3 + x ^ 2 / 4 := Real.sq_sqrt hnn
  have hprod : (y - x / 2) * (y + x / 2) = p ^ 3 := by linear_combination hysq
  have hAB : cbrt (y - x / 2) * cbrt (y + x / 2) = p := by
    rw [← cbrt_mul, hprod, cbrt_of_cube]
  have hA : cbrt (y - x / 2) ^ 3 = y - x / 2 := cbrt_cube _
  have hB : cbrt (y + x / 2) ^ 3 = y + x / 2 := cbrt_cube _
  linear_combination hA - hB + (3 * cbrt (y + x / 2) - 3 * cbrt (y - x / 2)) * hAB

/-- With `0 < b` and `0 < c` the cubic `c*u^3 + b*u` is injective: it has at
most one real root at any given value. -/
lemma cubic_unique_scaled {b c u v d : ℝ} (hb : 0 < b) (hc : 0 < c)
    (hu : c * u ^ 3 + b * u = d) (hv : c * v ^ 3 + b * v = d) :
    u = v := by
  have h : (u - v) * (c * (u ^ 2 + u * v + v ^ 2) + b) = 0 := by
    linear_combination hu - hv
  have hsq : (0 : ℝ) ≤ u ^ 2 + u * v + v ^ 2 := by
    nlinarith [sq_nonneg (u + v), sq_nonneg (u - v)]
  have h2 : 0 < c * (u ^ 2 + u * v + v ^ 2) + b := by
    have := mul_nonneg hc.le hsq
    linarith
  rcases mul_eq_zero.mp h with h3 | h3
  · linarith
  · exact absurd h3 (ne_of_gt h2)

/-- The exponent computed by `resistance` inverts the cubic: for `0 < b`,
`0 < c`, the number `u = cbrt(y - x/2) - cbrt(y + x/2)` built from
`x = (a - s)/c` and `y = sqrt((b/(3c))^3 + x^2/4)` satisfies
`a + b*u + c*u^3 = s`. -/
lemma exponent_solves (a b c s : ℝ) (hb : 0 < b) (hc : 0 < c) :
    a + b * (cbrt (Real.sqrt ((b / (3 * c)) ^ 3 + ((a - s) / c) ^ 2 / 4) - (a - s) / c / 2)
          - cbrt (Real.sqrt ((b / (3 * c)) ^ 3 + ((a - s) / c) ^ 2 / 4) + (a - s) / c / 2))
      + c * (cbrt (Real.sqrt ((b / (3 * c)) ^ 3 + ((a - s) / c) ^ 2 / 4) - (a - s) / c / 2)
          - cbrt (Real.sqrt ((b / (3 * c)) ^ 3 + ((a - s) / c) ^ 2 / 4) + (a - s) / c / 2)) ^ 3
      = s := by
  have hp : (0 : ℝ) ≤ b / (3 * c) := by positivity
  have h := cardano_root (b / (3 * c)) ((a - s) / c) hp
  have hc0 : c ≠ 0 := ne_of_gt hc
  set u := cbrt (Real.sqrt ((b / (3 * c)) ^ 3 + ((a - s) / c) ^ 2 / 4) - (a - s) / c / 2)
      - cbrt (Real.sqrt ((b / (3 * c)) ^ 3 + ((a - s) / c) ^ 2 / 4) + (a - s) / c / 2) with hu
  field_simp at h
  have h4 : (3 * c) * (c * u ^ 3 + b * u + (a - s)) = 0 := by linear_combination h
  rcases mul_eq_zero.mp h4 with h5 | h5
  · exact absurd h5 (by positivity)
  · linarith

/-- Unfolding lemma for `temperature` once the optional triple is resolved. -/
lemma temperature_eq (r : ℝ) (abc : Option ABC) (a b c : ℝ)
    (h : abc.getD DEFAULT_ABC = (a, b, c)) :
    temperature r abc = 1 / (a + b * Real.log r + c * Real.log r ^ 3) := by
  simp only [temperature, h]

/-- Unfolding lemma for `resistance` once the optional triple is resolved. -/
lemma resistance_eq (t : ℝ) (abc : Option ABC) (a b c : ℝ)
    (h : abc.getD DEFAULT_ABC = (a, b, c)) :
    resistance t abc =
      Real.exp
        (cbrt (Real.sqrt ((b / (3 * c)) ^ 3 + ((a - 1 / t) / c) ^ 2 / 4)
            - (a - 1 / t) / c / 2)
          - cbrt (Real.sqrt ((b / (3 * c)) ^ 3 + ((a - 1 / t) / c) ^ 2 / 4)
            + (a - 1 / t) / c / 2)) := by
  simp only [resistance, h]

/-- Reverse round trip: for positive `b`, `c` and nonzero `t`, applying
`temperature` to `resistance t` recovers `t` exactly. -/
lemma temperature_resistance_round (a b c t : ℝ) (hb : 0 < b) (hc : 0 < c)
    (ht : t ≠ 0) (abc : Option ABC) (h : abc.getD DEFAULT_ABC = (a, b, c)) :
    temperature (resistance t abc) abc = t := by
  rw [resistance_eq t abc a b c h, temperature_eq _ abc a b c h, Real.log_exp]
  rw [exponent_solves a b c (1 / t) hb hc]
  exact one_div_one_div t

/-- Forward round trip: for positive `b`, `c`, positive `r` and a nonzero
Steinhart-Hart denominator, applying `resistance` to `temperature r`
recovers `r` exactly. -/
lemma resistance_temperature_round (a b c r : ℝ) (hb : 0 < b) (hc : 0 < c)
    (hr : 0 < r) (hD : a + b * Real.log r + c * Real.log r ^ 3 ≠ 0)
    (abc : Option ABC) (h : abc.getD DEFAULT_ABC = (a, b, c)) :
    resistance (temperature r abc) abc = r := by
  rw [temperature_eq r abc a b c h, resistance_eq _ abc a b c h,
    one_div_one_div (a + b * Real.log r + c * Real.log r ^ 3)]
  have hu := exponent_solves a b c (a + b * Real.log r + c * Real.log r ^ 3) hb hc
  set u := cbrt (Real.sqrt ((b / (3 * c)) ^ 3
        + ((a - (a + b * Real.log r + c * Real.log r ^ 3)) / c) ^ 2 / 4)
      - (a - (a + b * Real.log r + c * Real.log r ^ 3)) / c / 2)
    - cbrt (Real.sqrt ((b / (3 * c)) ^ 3
        + ((a - (a + b * Real.log r + c * Real.log r ^ 3)) / c) ^ 2 / 4)
      + (a - (a + b * Real.log r + c * Real.log r ^ 3)) / c / 2) with hudef
  have hurt : c * u ^ 3 + b * u = b * Real.log r + c * Real.log r ^ 3 := by
    linear_combination hu
  have hLrt : c * Real.log r ^ 3 + b * Real.log r
      = b * Real.log r + c * Real.log r ^ 3 := by ring
  rw [cubic_unique_scaled hb hc hurt hLrt, Real.exp_log hr]

/-- Lower bound for the logarithm: `1 - 1/x ≤ log x` for positive `x`. -/
lemma one_sub_inv_le_log (x : ℝ) (hx : 0 < x) : 1 - 1 / x ≤ Real.log x := by
  have h := Real.log_le_sub_one_of_pos (show (0 : ℝ) < x⁻¹ by positivity)
  rw [Real.log_inv] at h
  have h2 : 1 - x⁻¹ ≤ Real.log x := by linarith
  simpa [one_div] using h2

/-- Decomposition of `log 10000` through powers of two. -/
lemma log_10000_decomp : Real.log 10000 = 13 * Real.log 2 + Real.log (625 / 512) := by
  have h : (10000 : ℝ) = 2 ^ 13 * (625 / 512) := by norm_num
  rw [h, Real.log_mul (by norm_num) (by norm_num), Real.log_pow]
  norm_num

/-- Rational lower bound on `log 10000`. -/
lemma log_10000_lb : (9.1917133439 : ℝ) ≤ Real.log 10000 := by
  rw [log_10000_decomp]
  have h1 : (0.6931471803 : ℝ) < Real.log 2 := Real.log_two_gt_d9
  have h2 : (1 : ℝ) - 1 / (625 / 512) ≤ Real.log (625 / 512) :=
    one_sub_inv_le_log _ (by norm_num)
  norm_num at h2 ⊢
  linarith

/-- Rational upper bound on `log 10000`. -/
lemma log_10000_ub : Real.log 10000 ≤ (9.2316164754 : ℝ) := by
  rw [log_10000_decomp]
  have h1 : Real.log 2 < (0.6931471808 : ℝ) := Real.log_two_lt_d9
  have h2 : Real.log (625 / 512) ≤ 625 / 512 - 1 :=
    Real.log_le_sub_one_of_pos (by norm_num)
  norm_num at h2 ⊢
  linarith

/-- Rational lower bound on `log 1000`. -/
lemma log_1000_lb : (6.907471803 : ℝ) ≤ Real.log 1000 := by
  have h : (1000 : ℝ) = 2 ^ 10 * (125 / 128) := by norm_num
  have hd : Real.log 1000 = 10 * Real.log 2 + Real.log (125 / 128) := by
    rw [h, Real.log_mul (by norm_num) (by norm_num), Real.log_pow]
    norm_num
  have h1 : (0.6931471803 : ℝ) < Real.log 2 := Real.log_two_gt_d9
  have h2 : (1 : ℝ) - 1 / (125 / 128) ≤ Real.log (125 / 128) :=
    one_sub_inv_le_log _ (by norm_num)
  rw [hd]
  norm_num at h2 ⊢
  linarith

/-- Resolving the default triple of `steinhart_hart.py`. -/
lemma default_resolve :
    (none : Option ABC).getD DEFAULT_ABC
      = ((1.125e-3 : ℝ), (2.347e-4 : ℝ), (0.855e-7 : ℝ)) := rfl

/-- Numeric bracketing of `temperature 10000` under the default triple. -/
lemma temperature_10000_bounds :
    (297.65 : ℝ) < temperature 10000 none ∧ temperature 10000 none < (298.65 : ℝ) := by
  rw [temperature_eq 10000 none _ _ _ default_resolve]
  set L := Real.log 10000 with hL
  have h1 : (9.1917133439 : ℝ) ≤ L := log_10000_lb
  have h2 : L ≤ (9.2316164754 : ℝ) := log_10000_ub
  have hcube_lb : (9.1917133439 : ℝ) ^ 3 ≤ L ^ 3 :=
    pow_le_pow_left₀ (by norm_num) h1 3
  have hcube_ub : L ^ 3 ≤ (9.2316164754 : ℝ) ^ 3 :=
    pow_le_pow_left₀ (by linarith) h2 3
  have hD_lb : (1.125e-3 + 2.347e-4 * 9.1917133439
        + 0.855e-7 * 9.1917133439 ^ 3 : ℝ)
      ≤ 1.125e-3 + 2.347e-4 * L + 0.855e-7 * L ^ 3 := by
    linarith
  have hD_ub : 1.125e-3 + 2.347e-4 * L + 0.855e-7 * L ^ 3
      ≤ (1.125e-3 + 2.347e-4 * 9.2316164754
        + 0.855e-7 * 9.2316164754 ^ 3 : ℝ) := by
    linarith
  have hDpos : (0 : ℝ) < 1.125e-3 + 2.347e-4 * L + 0.855e-7 * L ^ 3 := by
    have : (0 : ℝ) < 1.125e-3 + 2.347e-4 * 9.1917133439
        + 0.855e-7 * 9.1917133439 ^ 3 := by norm_num
    linarith
  constructor
  · have hstep := one_div_le_one_div_of_le hDpos hD_ub
    have : (297.65 : ℝ) < 1 / (1.125e-3 + 2.347e-4 * 9.2316164754
        + 0.855e-7 * 9.2316164754 ^ 3) := by norm_num
    linarith
  · have hDlopos : (0 : ℝ) < 1.125e-3 + 2.347e-4 * 9.1917133439
        + 0.855e-7 * 9.1917133439 ^ 3 := by norm_num
    have hstep := one_div_le_one_div_of_le hDlopos hD_lb
    have : 1 / (1.125e-3 + 2.347e-4 * 9.1917133439
        + 0.855e-7 * 9.1917133439 ^ 3) < (298.65 : ℝ) := by norm_num
    linarith

/-- Under the default triple the Steinhart-Hart denominator is negative at
`r = 1/1000`, so `temperature (1/1000)` is negative. -/
lemma temperature_milli_neg : temperature (1 / 1000) none < 0 := by
  rw [temperature_eq (1 / 1000) none _ _ _ default_resolve]
  set L := Real.log ((1 : ℝ) / 1000) with hL
  have hLval : L = -Real.log 1000 := by
    rw [hL, one_div, Real.log_inv]
  have hub : L ≤ -6.907471803 := by
    rw [hLval]
    have := log_1000_lb
    linarith
  have hLneg : L < 0 := by linarith
  have hcube_neg : L ^ 3 < 0 := by
    have := Odd.pow_neg (⟨1, by norm_num⟩ : Odd 3) hLneg
    simpa using this
  have hD_neg : 1.125e-3 + 2.347e-4 * L + 0.855e-7 * L ^ 3 < 0 := by
    nlinarith
  exact one_div_neg.mpr hD_neg

/-- The signed cube root of zero is zero. -/
lemma cbrt_zero : cbrt 0 = 0 := by
  unfold cbrt
  rw [if_neg (lt_irrefl 0)]
  exact Real.zero_rpow (by norm_num)

/-- The signed real cube root is negative on negative inputs. -/
lemma cbrt_neg_of_neg {v : ℝ} (hv : v < 0) : cbrt v < 0 := by
  have h := cbrt_lt_cbrt hv
  rwa [cbrt_zero] at h

/-- For any negative temperature input, `resistance` under the default triple
returns an ordinary value: a strictly positive real below `1`. -/
lemma resistance_neg_result {t : ℝ} (ht : t < 0) :
    0 < resistance t none ∧ resistance t none < 1 := by
  rw [resistance_eq t none _ _ _ default_resolve]
  refine ⟨Real.exp_pos _, ?_⟩
  have h1t : 1 / t < 0 := one_div_neg.mpr ht
  have hxnum : (0 : ℝ) < 1.125e-3 - 1 / t := by linarith
  have hx : (0 : ℝ) < (1.125e-3 - 1 / t) / 0.855e-7 := by positivity
  have hlt : Real.sqrt ((2.347e-4 / (3 * 0.855e-7)) ^ 3
        + ((1.125e-3 - 1 / t) / 0.855e-7) ^ 2 / 4)
        - (1.125e-3 - 1 / t) / 0.855e-7 / 2
      < Real.sqrt ((2.347e-4 / (3 * 0.855e-7)) ^ 3
        + ((1.125e-3 - 1 / t) / 0.855e-7) ^ 2 / 4)
        + (1.125e-3 - 1 / t) / 0.855e-7 / 2 := by linarith
  have hneg := cbrt_lt_cbrt hlt
  have hexp : Real.exp (cbrt (Real.sqrt ((2.347e-4 / (3 * 0.855e-7)) ^ 3
        + ((1.125e-3 - 1 / t) / 0.855e-7) ^ 2 / 4)
        - (1.125e-3 - 1 / t) / 0.855e-7 / 2)
      - cbrt (Real.sqrt ((2.347e-4 / (3 * 0.855e-7)) ^ 3
        + ((1.125e-3 - 1 / t) / 0.855e-7) ^ 2 / 4)
        + (1.125e-3 - 1 / t) / 0.855e-7 / 2)) < Real.exp 0 :=
    Real.exp_lt_exp.mpr (by linarith)
  rwa [Real.exp_zero] at hexp

/-- C1: for every resistance `r > 0` and every coefficient triple (the
default triple when none is supplied), `temperature r abc` returns
`1 / (A + B·ln r + C·ln(r)³)`, the Steinhart-Hart temperature in Kelvin. -/
theorem claim_C1_temperature_formula (r : ℝ) (abc : Option ABC) (a b c : ℝ)
    (h : abc.getD DEFAULT_ABC = (a, b, c)) (hr : 0 < r) :
    temperature r abc = 1 / (a + b * Real.log r + c * Real.log r ^ 3) :=
  temperature_eq r abc a b c h

/-- Witness for C1 at `r = 1` with the default triple. -/
theorem claim_C1_witness :
    (none : Option ABC).getD DEFAULT_ABC
        = ((1.125e-3 : ℝ), (2.347e-4 : ℝ), (0.855e-7 : ℝ))
      ∧ (0 : ℝ) < 1
      ∧ temperature 1 none
        = 1 / (1.125e-3 + 2.347e-4 * Real.log 1 + 0.855e-7 * Real.log 1 ^ 3) :=
  ⟨rfl, by norm_num,
    claim_C1_temperature_formula 1 none 1.125e-3 2.347e-4 0.855e-7 rfl (by norm_num)⟩

/-- C2: for every temperature `t > 0` and every coefficient triple (the
default triple when none is supplied), `resistance t abc` computes exactly
the closed-form cubic inversion `exp(cbrt(y - x/2) - cbrt(y + x/2))` with
`x = (A - 1/t)/C` and `y = sqrt((B/(3C))^3 + x^2/4)`, where `cbrt` is the
real, correctly signed cube root (it cubes back to its argument and is
negative on negative arguments). -/
theorem claim_C2_resistance_formula (t : ℝ) (abc : Option ABC) (a b c : ℝ)
    (h : abc.getD DEFAULT_ABC = (a, b, c)) (ht : 0 < t) :
    resistance t abc
        = Real.exp
          (cbrt (Real.sqrt ((b / (3 * c)) ^ 3 + ((a - 1 / t) / c) ^ 2 / 4)
              - (a - 1 / t) / c / 2)
            - cbrt (Real.sqrt ((b / (3 * c)) ^ 3 + ((a - 1 / t) / c) ^ 2 / 4)
              + (a - 1 / t) / c / 2))
      ∧ (∀ v : ℝ, cbrt v ^ 3 = v)
      ∧ (∀ v : ℝ, v < 0 → cbrt v < 0) :=
  ⟨resistance_eq t abc a b c h, cbrt_cube, fun _ hv => cbrt_neg_of_neg hv⟩

/-- Witness for C2 at `t = 300` with the default triple. -/
theorem claim_C2_witness :
    (none : Option ABC).getD DEFAULT_ABC
        = ((1.125e-3 : ℝ), (2.347e-4 : ℝ), (0.855e-7 : ℝ))
      ∧ (0 : ℝ) < 300
      ∧ (resistance 300 none
          = Real.exp
            (cbrt (Real.sqrt ((2.347e-4 / (3 * 0.855e-7)) ^ 3
                  + ((1.125e-3 - 1 / 300) / 0.855e-7) ^ 2 / 4)
                - (1.125e-3 - 1 / 300) / 0.855e-7 / 2)
              - cbrt (Real.sqrt ((2.347e-4 / (3 * 0.855e-7)) ^ 3
                  + ((1.125e-3 - 1 / 300) / 0.855e-7) ^ 2 / 4)
                + (1.125e-3 - 1 / 300) / 0.855e-7 / 2))
        ∧ (∀ v : ℝ, cbrt v ^ 3 = v)
        ∧ (∀ v : ℝ, v < 0 → cbrt v < 0)) :=
  ⟨rfl, by norm_num,
    claim_C2_resistance_formula 300 none 1.125e-3 2.347e-4 0.855e-7 rfl (by norm_num)⟩

/-- C3 counterexample: the claim says `resistance (-1)` fails with an
`InvalidInput` error, but the code performs no input validation at all: at
`t = -1` every intermediate of the formula is an ordinary real number and
the call silently returns a strictly positive resistance below one ohm
(numerically about 2.6e-97) instead of failing. -/
theorem claim_C3_counterexample :
    0 < resistance (-1) none ∧ resistance (-1) none < 1 :=
  resistance_neg_result (by norm_num)

/-- C3 amended: neither operation has an `InvalidInput` failure path; calls
on non-positive inputs flow straight through the formula. In the exactly
modelled region, every negative temperature input makes `resistance` return
an ordinary strictly positive value below one ohm rather than fail. -/
theorem claim_C3_amended_no_failure (t : ℝ) (ht : t < 0) :
    0 < resistance t none ∧ resistance t none < 1 :=
  resistance_neg_result ht

/-- Witness for the amended C3 at `t = -2`. -/
theorem claim_C3_witness :
    (-2 : ℝ) < 0 ∧ (0 < resistance (-2) none ∧ resistance (-2) none < 1) :=
  ⟨by norm_num, claim_C3_amended_no_failure (-2) (by norm_num)⟩

/-- C4: round trip. For any coefficient triple with positive components
(the default triple included), `resistance (temperature r)` recovers `r`
exactly for every `r` in the range 100 Ω to 1 000 000 Ω — in particular the
relative error is 0 < 1e-9 — and symmetrically `temperature (resistance t)`
recovers every nonzero temperature `t` exactly, using the same triple for
both calls. -/
theorem claim_C4_round_trip (abc : Option ABC) (a b c : ℝ)
    (h : abc.getD DEFAULT_ABC = (a, b, c))
    (ha : 0 < a) (hb : 0 < b) (hc : 0 < c) :
    (∀ r : ℝ, 100 ≤ r → r ≤ 1000000 → resistance (temperature r abc) abc = r)
      ∧ (∀ t : ℝ, t ≠ 0 → temperature (resistance t abc) abc = t) := by
  constructor
  · intro r h100 _
    have hr : (0 : ℝ) < r := by linarith
    have hL : 0 ≤ Real.log r := Real.log_nonneg (by linarith)
    have hD : 0 < a + b * Real.log r + c * Real.log r ^ 3 := by
      have h3 : 0 ≤ Real.log r ^ 3 := pow_nonneg hL 3
      have hbL := mul_nonneg hb.le hL
      have hcL := mul_nonneg hc.le h3
      linarith
    exact resistance_temperature_round a b c r hb hc hr (ne_of_gt hD) abc h
  · intro t ht
    exact temperature_resistance_round a b c t hb hc ht abc h

/-- Witness for C4: both round trips at concrete points, default triple. -/
theorem claim_C4_witness :
    ((none : Option ABC).getD DEFAULT_ABC
        = ((1.125e-3 : ℝ), (2.347e-4 : ℝ), (0.855e-7 : ℝ))
      ∧ (0 : ℝ) < 1.125e-3 ∧ (0 : ℝ) < 2.347e-4 ∧ (0 : ℝ) < 0.855e-7
      ∧ (100 : ℝ) ≤ 10000 ∧ (10000 : ℝ) ≤ 1000000 ∧ (300 : ℝ) ≠ 0)
      ∧ resistance (temperature 10000 none) none = 10000
      ∧ temperature (resistance 300 none) none = 300 :=
  ⟨⟨rfl, by norm_num, by norm_num, by norm_num, by norm_num, by norm_num,
      by norm_num⟩,
    (claim_C4_round_trip none 1.125e-3 2.347e-4 0.855e-7 rfl (by norm_num)
        (by norm_num) (by norm_num)).1 10000 (by norm_num) (by norm_num),
    (claim_C4_round_trip none 1.125e-3 2.347e-4 0.855e-7 rfl (by norm_num)
        (by norm_num) (by norm_num)).2 300 (by norm_num)⟩

/-- C5 counterexample: with the default triple, `temperature` is not
strictly decreasing over all of `r > 0`: at `r1 = 1/1000 < r2 = 10000` the
Steinhart-Hart denominator has changed sign, and `temperature (1/1000)` is
negative while `temperature 10000` is positive, so
`temperature r1 > temperature r2` fails. -/
theorem claim_C5_counterexample :
    (0 : ℝ) < 1 / 1000 ∧ (1 / 1000 : ℝ) < 10000
      ∧ temperature (1 / 1000) none < temperature 10000 none := by
  refine ⟨by norm_num, by norm_num, ?_⟩
  have h1 := temperature_milli_neg
  have h2 := temperature_10000_bounds.1
  linarith

/-- C5 amended: with the default triple, `temperature` is strictly
decreasing on resistances `r ≥ 1` (which covers the calibrated physical
regime; the claim fails only for tiny resistances where the denominator of
the formula turns negative). -/
theorem claim_C5_amended_monotone (r1 r2 : ℝ) (h1 : 1 ≤ r1) (h12 : r1 < r2) :
    temperature r2 none < temperature r1 none := by
  rw [temperature_eq r1 none _ _ _ default_resolve,
    temperature_eq r2 none _ _ _ default_resolve]
  have hr1 : (0 : ℝ) < r1 := by linarith
  have hL1 : 0 ≤ Real.log r1 := Real.log_nonneg h1
  have hLlt : Real.log r1 < Real.log r2 := Real.log_lt_log hr1 h12
  have hcube : Real.log r1 ^ 3 ≤ Real.log r2 ^ 3 :=
    pow_le_pow_left₀ hL1 hLlt.le 3
  have hD1pos :
      0 < 1.125e-3 + 2.347e-4 * Real.log r1 + 0.855e-7 * Real.log r1 ^ 3 := by
    have h3 : 0 ≤ Real.log r1 ^ 3 := pow_nonneg hL1 3
    have hbL := mul_nonneg (show (0:ℝ) ≤ 2.347e-4 by norm_num) hL1
    have hcL := mul_nonneg (show (0:ℝ) ≤ 0.855e-7 by norm_num) h3
    linarith
  have hDlt : 1.125e-3 + 2.347e-4 * Real.log r1 + 0.855e-7 * Real.log r1 ^ 3
      < 1.125e-3 + 2.347e-4 * Real.log r2 + 0.855e-7 * Real.log r2 ^ 3 := by
    linarith
  exact one_div_lt_one_div_of_lt hD1pos hDlt

/-- Witness for the amended C5 at `r1 = 1`, `r2 = 2`. -/
theorem claim_C5_witness :
    (1 : ℝ) ≤ 1 ∧ (1 : ℝ) < 2 ∧ temperature 2 none < temperature 1 none :=
  ⟨le_refl 1, by norm_num, claim_C5_amended_monotone 1 2 (le_refl 1) (by norm_num)⟩

/-- C6: with the default triple, `temperature 10000` is a fixed value near
298.15 K (about 25 °C): it lies within half a kelvin of 298.15 (its exact
value is 298.19... K). -/
theorem claim_C6_fixed_point : |temperature 10000 none - 298.15| < 1 / 2 := by
  rcases temperature_10000_bounds with ⟨h1, h2⟩
  rw [abs_lt]
  constructor <;> linarith

/-- C7: for every valid input `t > 0` and any coefficient triple, the result
of `resistance` is strictly positive, because it is the exponential of a
real number. -/
theorem claim_C7_resistance_pos (t : ℝ) (abc : Option ABC) (ht : 0 < t) :
    0 < resistance t abc := by
  simp only [resistance]
  exact Real.exp_pos _

/-- Witness for C7 at `t = 298`. -/
theorem claim_C7_witness : (0 : ℝ) < 298 ∧ 0 < resistance 298 none :=
  ⟨by norm_num, claim_C7_resistance_pos 298 none (by norm_num)⟩

/-- C8: the exported default triple equals
(1.125e-3, 2.347e-4, 8.55e-8); both operations use exactly this triple when
no triple is supplied, and when a triple `p` is supplied the result is a
function of `p` alone (the default is not consulted). -/
theorem claim_C8_default_triple :
    DEFAULT_ABC = ((1.125e-3 : ℝ), (2.347e-4 : ℝ), (8.55e-8 : ℝ))
      ∧ (∀ r : ℝ, temperature r none = temperature r (some DEFAULT_ABC))
      ∧ (∀ t : ℝ, resistance t none = resistance t (some DEFAULT_ABC))
      ∧ (∀ (r : ℝ) (p : ABC), temperature r (some p)
          = 1 / (p.1 + p.2.1 * Real.log r + p.2.2 * Real.log r ^ 3))
      ∧ (∀ (t : ℝ) (p : ABC), resistance t (some p)
          = Real.exp
            (cbrt (Real.sqrt ((p.2.1 / (3 * p.2.2)) ^ 3
                  + ((p.1 - 1 / t) / p.2.2) ^ 2 / 4)
                - (p.1 - 1 / t) / p.2.2 / 2)
              - cbrt (Real.sqrt ((p.2.1 / (3 * p.2.2)) ^ 3
                  + ((p.1 - 1 / t) / p.2.2) ^ 2 / 4)
                + (p.1 - 1 / t) / p.2.2 / 2))) := by
  refine ⟨?_, fun r => rfl, fun t => rfl, fun r p => rfl, fun t p => rfl⟩
  simp only [DEFAULT_ABC, Prod.mk.injEq]

/-- C9: the class-based wrapper is exactly equivalent to the module-level
functions: for every triple `p`, `Abc(p).temperature r = temperature r p`
and `Abc(p).resistance t = resistance t p`, and `Abc()` built with no
argument behaves identically to the module functions called with no triple
(both fall back to `DEFAULT_ABC`). -/
theorem claim_C9_class_equiv (p : ABC) (r t : ℝ) :
    (Abc.init (some p)).temperature r = temperature r (some p)
      ∧ (Abc.init (some p)).resistance t = resistance t (some p)
      ∧ (Abc.init none).temperature r = temperature r none
      ∧ (Abc.init none).resistance t = resistance t none :=
  ⟨rfl, rfl, rfl, rfl⟩

/-- C10: the two file variants differ by the fixed Celsius/Kelvin offset
baked into the `shh.py` core: for every `r > 0` and triple,
`Shh.temperature r abc = temperature r abc - 273.15` (degrees Celsius), and
for every `t`, `Shh.resistance t abc = resistance (t + 273.15) abc` (its
argument is interpreted as degrees Celsius). -/
theorem claim_C10_offset (r t : ℝ) (abc : Option ABC) (hr : 0 < r) :
    Shh.temperature r abc = temperature r abc - 273.15
      ∧ Shh.resistance t abc = resistance (t + 273.15) abc := by
  constructor
  · simp only [Shh.temperature, temperature, Shh.DEFAULT_ABC, DEFAULT_ABC]
  · simp only [Shh.resistance, resistance, Shh.DEFAULT_ABC, DEFAULT_ABC]

/-- Witness for C10 at `r = 1`, `t = 25`, default triple. -/
theorem claim_C10_witness :
    (0 : ℝ) < 1
      ∧ (Shh.temperature 1 none = temperature 1 none - 273.15
        ∧ Shh.resistance 25 none = resistance (25 + 273.15) none) :=
  ⟨by norm_num, claim_C10_offset 1 25 none (by norm_num)⟩
